import Mathlib

/-!
# Verification of the WebGL2-compute tensor backend's pure core

This development shallowly embeds the pure, shape-level algorithms of the
WebGL2-compute tensor backend (dispatch geometry, workgroup-size heuristic,
uniform-buffer packing, coordinate indexing, shader-binary caching, and the
tensor-registration lifecycle) and proves the specified properties about them.

Conventions of the embedding:
* JavaScript numbers carrying sizes, ranks, counts and offsets are modelled as
  `ℕ` (all the embedded code only ever produces non-negative integers there);
  the one signed quantity (`count - 1` in the minimality bound for dispatch
  counts) is stated over `ℤ`.
* `throw new Error(msg)` in a pure function is modelled as
  `Except.error msg`; in a stateful operation it is modelled as returning
  `(some msg, unchangedState)`.
* `Math.ceil(a / b)` on naturals with a positive divisor is `(a + b - 1) / b`.
-/

namespace WebGL2Compute

/-- `Math.ceil(a / b)` for naturals; meaningful for a positive divisor `b`
(the embedded code only ever divides by positive workgroup/alignment sizes). -/
def ceilDiv (a b : ℕ) : ℕ := (a + b - 1) / b

/-- `util.sizeFromShape(shape)`: the element count of a shape
(product of the dimensions, `1` for the empty shape). -/
def sizeFromShape (shape : List ℕ) : ℕ := shape.foldl (fun a b => a * b) 1

/-- `arrayProduct` from `webgl2compute_util` (bundled in
`src/src/benchmark_ops_test.ts`): throws on an empty array, otherwise
multiplies the entries starting from `1`. -/
def arrayProduct (arr : List ℕ) : Except String ℕ :=
  if arr.isEmpty then Except.error "Cannot compute product of empty array."
  else Except.ok (arr.foldl (fun a b => a * b) 1)

/-- A dispatch layout: the output-dimension indices assigned to each of the
three hardware dispatch axes. -/
structure DispatchLayout where
  x : List ℕ
  y : List ℕ
  z : List ℕ

/-- The product of the output-shape sizes of the dimensions assigned to one
axis (the `.ok` value that `arrayProduct (dims.map (outputShape[·]))`
produces for a non-empty `dims`). -/
def axisProduct (dims outputShape : List ℕ) : ℕ :=
  (dims.map (fun d => outputShape.getD d 0)).foldl (fun a b => a * b) 1

/-- One axis of `computeDispatch`:
`Math.ceil(arrayProduct(layout.axis.map(d => outputShape[d])) / (wg * ept))`. -/
def axisCount (dims outputShape : List ℕ) (wg ept : ℕ) : Except String ℕ :=
  (arrayProduct (dims.map (fun d => outputShape.getD d 0))).map
    (fun p => ceilDiv p (wg * ept))

/-- `computeDispatch` from `webgl2compute_util`: per-axis workgroup counts
from the dispatch layout, the output shape, the workgroup size and the
elements-per-thread multipliers. -/
def computeDispatch (layout : DispatchLayout) (outputShape : List ℕ)
    (workGroupSize elementsPerThread : ℕ × ℕ × ℕ) :
    Except String (ℕ × ℕ × ℕ) := do
  let cx ← axisCount layout.x outputShape workGroupSize.1 elementsPerThread.1
  let cy ← axisCount layout.y outputShape workGroupSize.2.1 elementsPerThread.2.1
  let cz ← axisCount layout.z outputShape workGroupSize.2.2 elementsPerThread.2.2
  Except.ok (cx, cy, cz)

/-- The `x` component picked by the current `computeWorkGroupSize`
(`webgl2compute_util`, the revision hosting `computeDispatch`): an
else-if threshold ladder over the output element count. -/
def workGroupXSize (size : ℕ) : ℕ :=
  if 512 < size then 512
  else if 256 < size then 256
  else if 128 < size then 128
  else if 64 < size then 64
  else if 32 < size then 32
  else if 16 < size then 16
  else 16

/-- `computeWorkGroupSize(outputShape)` from `webgl2compute_util`:
`[x, 1, 1]` with `x` from the threshold ladder over `Π outputShape`. -/
def computeWorkGroupSize (outputShape : List ℕ) : ℕ × ℕ × ℕ :=
  (workGroupXSize (sizeFromShape outputShape), 1, 1)

/-! ## Uniform-buffer packing (`WebGL2ComputeBackend.compileAndRun`) -/

/-- The std140 base alignment picked by `compileAndRun`'s `switch (d.length)`:
`1` for rank 0-1, `2` for rank 2, `4` for rank 3-4; `util.assert(false, ...)`
(a thrown error) for any larger rank. -/
def baseAlignment (rank : ℕ) : Except String ℕ :=
  match rank with
  | 0 => Except.ok 1
  | 1 => Except.ok 1
  | 2 => Except.ok 2
  | 3 => Except.ok 4
  | 4 => Except.ok 4
  | r => Except.error s!"Unsupported {r}D shape"

/-- `Math.ceil(currentOffset / baseAlignment) * baseAlignment - currentOffset`:
the number of zero padding slots inserted before a shape's components. -/
def padAmount (off align : ℕ) : ℕ := ceilDiv off align * align - off

/-- The general packing loop of `compileAndRun` (revision with the base-alignment
table): starting at offset `off`, for each shape replace an empty shape by
`[1]`, pad with zeros up to the shape's base alignment, then emit the shape's
components; the offset advances by the padding plus the rank. -/
def packFrom : ℕ → List (List ℕ) → Except String (List ℕ)
  | _, [] => Except.ok []
  | off, d :: rest =>
    let d := if d.isEmpty then [1] else d
    match baseAlignment d.length with
    | Except.error e => Except.error e
    | Except.ok align =>
      let padding := padAmount off align
      match packFrom (off + d.length + padding) rest with
      | Except.error e => Except.error e
      | Except.ok t => Except.ok (List.replicate padding 0 ++ d ++ t)

/-- The `dimUniforms` sequence produced by `compileAndRun` for an ordered list
of input-then-output shapes (general base-alignment rule), before any
trailing `programUniforms` are appended. -/
def packShapes (shapes : List (List ℕ)) : Except String (List ℕ) :=
  packFrom 0 shapes

/-- The earlier revision's packing loop: push a single `0` before a rank-3
shape that immediately follows another rank-3 shape, and no other padding.
The first argument is the rank of the previous shape (`0` before the first
shape, where the `i > 0` guard is false). -/
def packSimpleAux : ℕ → List (List ℕ) → List ℕ
  | _, [] => []
  | prev, d :: rest =>
    (if d.length = 3 ∧ prev = 3 then [0] else []) ++ d ++
      packSimpleAux d.length rest

/-- The `dimUniforms` sequence produced by the earlier revision's
`compileAndRun` for an ordered list of shapes. -/
def packSimple (shapes : List (List ℕ)) : List ℕ :=
  packSimpleAux 0 shapes

/-! ## Coordinate indexing (`shader_preprocessor.ts`) -/

/-- The row-major `getFlatIndex` overload family from `SAMPLING_SNIPPETS`,
generalised over the rank: rank 1 returns the coordinate itself; higher ranks
compute `coords[0] * Π shape[1..] + getFlatIndex(coords[1..], shape[1..])`,
which unfolds to exactly the emitted rank-2/3/4 formulas
(see `getFlatIndex_rank2`/`_rank3`/`_rank4`). -/
def getFlatIndex : List ℕ → List ℕ → ℕ
  | [c], _ => c
  | c :: cs, _ :: ss => c * sizeFromShape ss + getFlatIndex cs ss
  | _, _ => 0

/-- Modelled from the spec: `symbolicallyComputeStrides` lives in
`src/shader_util.ts`, which is absent from the sources; the spec describes the
strides as row-major over the assigned dimensions, i.e. stride `j` is the
product of the dimension sizes after position `j`. -/
def computeStrides : List ℕ → List ℕ
  | [] => []
  | [_] => []
  | _ :: ss => sizeFromShape ss :: computeStrides ss

/-- The stride division/remainder decomposition emitted by
`generateGetOutputCoords` for a list of dimensions assigned to one dispatch
axis, most-significant first: `d_j = index / stride_j` followed by
`index -= d_j * stride_j`, the last dimension receiving the final remainder.
The head stride is `sizeFromShape ss`, the head of `computeStrides`. -/
def decomposeIndex : List ℕ → ℕ → List ℕ
  | [], _ => []
  | [_], i => [i]
  | _ :: ss, i =>
    let p := sizeFromShape ss
    i / p :: decomposeIndex ss (i - i / p * p)

/-! ## Broadcast accessor (`getSamplerAtOutputCoords`) -/

/-- Modelled from the spec: `getBroadcastDims` is imported from
`tfjs-core` (outside this repository). Per the spec, the broadcast dimensions
of an input with respect to the output are the input dimensions (aligned at
the trailing edge) whose extent is `1` while the corresponding output extent
is greater than `1`; the returned indices are into the input shape. -/
def getBroadcastDims (inShape outShape : List ℕ) : List ℕ :=
  (List.range inShape.length).filter (fun d =>
    inShape.getD d 0 = 1 ∧
      1 < outShape.getD (d + (outShape.length - inShape.length)) 0)

/-- The input coordinates read by the generated `get<Name>AtOutCoords`
accessor (`getSamplerAtOutputCoords`): take the output coordinates, set
`coords[d + rankDiff] = 0` for each broadcast dimension `d`, then keep the
components `coords[rankDiff + i]` for `i` below the input rank. -/
def samplerInputCoords (inShape outShape outCoords : List ℕ) : List ℕ :=
  let rankDiff := outShape.length - inShape.length
  let bdims := (getBroadcastDims inShape outShape).map (fun d => d + rankDiff)
  let zeroed := (List.range outCoords.length).map
    (fun j => if j ∈ bdims then 0 else outCoords.getD j 0)
  (List.range inShape.length).map (fun i => zeroed.getD (i + rankDiff) 0)

/-! ## Shader-binary cache (`getAndSaveBinary` / `makeShaderKey`) -/

/-- `Array.prototype.join(',')`. -/
def joinComma : List String → String
  | [] => ""
  | [s] => s
  | s :: rest => s ++ "," ++ joinComma rest

/-- `makeShaderKey` from `kernels/webgl2compute_program.ts`:
`workGroupSize.join(',') + ranks.join(',') + userCode`. -/
def makeShaderKey (workGroupSize : ℕ × ℕ × ℕ) (ranks : List ℕ)
    (userCode : String) : String :=
  joinComma
      [Nat.repr workGroupSize.1, Nat.repr workGroupSize.2.1,
        Nat.repr workGroupSize.2.2] ++
    joinComma (ranks.map Nat.repr) ++ userCode

/-- The observable state of the backend's compiled-binary cache: the stored
`key → binary` map, a supply of fresh binary handles, and a counter of how
many times the compile capability has been invoked. -/
structure CacheState where
  cache : List (String × ℕ)
  nextBinary : ℕ
  compiles : ℕ

/-- The fresh cache of a newly constructed backend (`this.binaryCache = {}`). -/
def initCacheState : CacheState :=
  { cache := [], nextBinary := 0, compiles := 0 }

/-- `key in this.binaryCache` / `this.binaryCache[key]`. -/
def lookupCache (c : List (String × ℕ)) (key : String) : Option ℕ :=
  (c.find? (fun p => p.1 == key)).map (fun p => p.2)

/-- `getAndSaveBinary`: on a hit return the stored binary unchanged; on a miss
invoke the compile capability (modelled as drawing a fresh binary handle and
bumping the compile counter) and store the result under the key. -/
def getAndSaveBinary (st : CacheState) (key : String) : CacheState × ℕ :=
  match lookupCache st.cache key with
  | some b => (st, b)
  | none =>
    ({ cache := (key, st.nextBinary) :: st.cache,
       nextBinary := st.nextBinary + 1,
       compiles := st.compiles + 1 }, st.nextBinary)

/-- The caching behaviour of `compileAndRun`: derive the key with
`makeShaderKey` from the workgroup size, the ranks of the inputs-then-output
shapes and the user code, then fetch-or-compile through `getAndSaveBinary`. -/
def compileAndRunCache (st : CacheState) (workGroupSize : ℕ × ℕ × ℕ)
    (ranks : List ℕ) (userCode : String) : CacheState × ℕ :=
  getAndSaveBinary st (makeShaderKey workGroupSize ranks userCode)

/-! ## Tensor registration lifecycle (`register`/`write`/`read`/`disposeData`) -/

/-- The per-tensor record held in `tensorMap` (`TensorInfo` in the backend). -/
structure TensorInfoM where
  byteSize : ℕ
  values : Option (List Int)
  id : Int
  buffer : ℕ

/-- The backend's tensor-lifecycle state: the identity-to-info map, the set of
live device buffers, and a supply of fresh buffer handles. -/
structure BackendState where
  tensorMap : List (ℕ × TensorInfoM)
  liveBuffers : List ℕ
  nextBuffer : ℕ

/-- `this.tensorMap.get(dataId)` (with `has` = `isSome`). -/
def tensorMapFind (m : List (ℕ × TensorInfoM)) (id : ℕ) : Option TensorInfoM :=
  (m.find? (fun p => p.1 == id)).map (fun p => p.2)

/-- The fail-fast message thrown for an unregistered identity. -/
def notRegisteredMsg (id : ℕ) : String := s!"Tensor {id} was not registered!"

/-- `register(dataId, shape, dtype)`: a no-op for a known identity; otherwise
allocate a device buffer of `size * bytesPerElement` bytes (4 for the modelled
dtypes) and record the info with `values = null` and `id = -1`. -/
def register (st : BackendState) (id : ℕ) (shape : List ℕ) : BackendState :=
  match tensorMapFind st.tensorMap id with
  | some _ => st
  | none =>
    { tensorMap :=
        (id, { byteSize := sizeFromShape shape * 4, values := none,
               id := -1, buffer := st.nextBuffer }) :: st.tensorMap,
      liveBuffers := st.nextBuffer :: st.liveBuffers,
      nextBuffer := st.nextBuffer + 1 }

/-- `write(dataId, values)`: throws the fail-fast error for an unregistered
identity (state untouched); otherwise stores the values on the info record and
uploads them to the device buffer (the upload is external to the model). -/
def write (st : BackendState) (id : ℕ) (values : List Int) :
    Option String × BackendState :=
  match tensorMapFind st.tensorMap id with
  | none => (some (notRegisteredMsg id), st)
  | some _ =>
    (none,
      { st with
        tensorMap := st.tensorMap.map (fun p =>
          if p.1 == id then (p.1, { p.2 with values := some values }) else p) })

/-- `read(dataId)`: throws the fail-fast error for an unregistered identity;
otherwise performs a device readback (external to the model) and leaves the
backend state unchanged. -/
def readTensor (st : BackendState) (id : ℕ) : Option String × BackendState :=
  match tensorMapFind st.tensorMap id with
  | none => (some (notRegisteredMsg id), st)
  | some _ => (none, st)

/-- `disposeData(dataId)`: throws the fail-fast error for an unregistered
identity; otherwise releases the device buffer (the map entry itself is not
removed by this revision). -/
def disposeData (st : BackendState) (id : ℕ) : Option String × BackendState :=
  match tensorMapFind st.tensorMap id with
  | none => (some (notRegisteredMsg id), st)
  | some info =>
    (none, { st with liveBuffers := st.liveBuffers.erase info.buffer })

/-! ## `concat` (`WebGL2ComputeBackend.concat`) -/

/-- A frontend tensor as the backend sees it: an identity and a shape. -/
structure TensorM where
  id : ℕ
  shape : List ℕ

/-- The observable execution state `concat` can touch: which identities are
registered, a supply of fresh identities, and compile/dispatch counters. -/
structure ExecState where
  registered : List ℕ
  nextId : ℕ
  compiles : ℕ
  dispatches : ℕ

/-- `concat_util.computeOutShape`: the first shape with the concatenation
axis replaced by the sum of all the axis extents. -/
def concatOutShape (shapes : List (List ℕ)) (axis : ℕ) : List ℕ :=
  match shapes with
  | [] => []
  | s :: _ => s.set axis (shapes.foldl (fun a sh => a + sh.getD axis 0) 0)

/-- `WebGL2ComputeBackend.concat`: a one-element list returns its tensor
unchanged before any other work; otherwise the inputs are reshaped to 2-D, a
`ConcatProgram` is built and run through `compileAndRun`, which registers a
fresh output tensor, consults the binary cache (modelled here as a fresh
compile) and issues one dispatch. -/
def concat (st : ExecState) (tensors : List TensorM) (axis : ℕ) :
    ExecState × Option TensorM :=
  match tensors with
  | [t] => (st, some t)
  | [] => (st, none)
  | ts =>
    let outShape := concatOutShape (ts.map (fun t => t.shape)) axis
    let out : TensorM := { id := st.nextId, shape := outShape }
    ({ registered := st.nextId :: st.registered,
       nextId := st.nextId + 1,
       compiles := st.compiles + 1,
       dispatches := st.dispatches + 1 }, some out)

/-! ## Arithmetic helper lemmas -/

theorem foldl_mul_eq (l : List ℕ) (a : ℕ) :
    l.foldl (fun x y => x * y) a = a * sizeFromShape l := by
  induction l generalizing a with
  | nil => simp [sizeFromShape]
  | cons s ss ih =>
    simp only [sizeFromShape, List.foldl] at *
    rw [ih (a * s), ih (1 * s)]
    ring

theorem sizeFromShape_cons (s : ℕ) (ss : List ℕ) :
    sizeFromShape (s :: ss) = s * sizeFromShape ss := by
  simp only [sizeFromShape, List.foldl]
  rw [foldl_mul_eq]
  simp [sizeFromShape]

/-- `ceilDiv a b` is the least count `c` with `a ≤ c * b`: it covers `a`, and
one count less does not (the strict bound is stated over `ℤ`, as `count - 1`
is `-1` in the source language when the product is zero). -/
theorem ceilDiv_spec (a b : ℕ) (hb : 0 < b) :
    a ≤ ceilDiv a b * b ∧ ((ceilDiv a b : ℤ) - 1) * (b : ℤ) < (a : ℤ) := by
  rcases Nat.eq_zero_or_pos a with ha | ha
  · subst ha
    have h0 : ceilDiv 0 b = 0 := by
      unfold ceilDiv
      simpa using Nat.div_eq_of_lt (by omega : b - 1 < b)
    rw [h0]
    refine ⟨by simp, ?_⟩
    have hbz : (0 : ℤ) < (b : ℤ) := by exact_mod_cast hb
    push_cast
    linarith
  · have hc : ceilDiv a b = (a - 1) / b + 1 := by
      unfold ceilDiv
      rw [show a + b - 1 = (a - 1) + b by omega]
      exact Nat.add_div_right _ hb
    have hdm := Nat.div_add_mod (a - 1) b
    have hmlt : (a - 1) % b < b := Nat.mod_lt _ hb
    constructor
    · rw [hc, Nat.add_mul, one_mul]
      have key : (a - 1) / b * b + (a - 1) % b = a - 1 := by
        rw [mul_comm]; exact hdm
      generalize (a - 1) / b * b = q at key ⊢
      generalize (a - 1) % b = m at key hmlt
      omega
    · rw [hc]
      have h2 : (a - 1) / b * b ≤ a - 1 := Nat.div_mul_le_self _ _
      generalize (a - 1) / b = q at h2 ⊢
      have h2z : (q : ℤ) * (b : ℤ) ≤ (a : ℤ) - 1 := by
        have hcast := (Nat.cast_le (α := ℤ)).mpr h2
        push_cast [Nat.cast_sub ha] at hcast
        exact hcast
      push_cast
      ring_nf
      ring_nf at h2z
      linarith

theorem arrayProduct_ne_nil (l : List ℕ) (h : l ≠ []) :
    arrayProduct l = Except.ok (l.foldl (fun a b => a * b) 1) := by
  unfold arrayProduct
  simp [h]

/-- On a layout whose three axes are all non-empty, `computeDispatch` succeeds
and returns the ceiling-divided per-axis products. -/
theorem computeDispatch_eq (layout : DispatchLayout) (outputShape : List ℕ)
    (wg ept : ℕ × ℕ × ℕ) (hx : layout.x ≠ []) (hy : layout.y ≠ [])
    (hz : layout.z ≠ []) :
    computeDispatch layout outputShape wg ept =
      Except.ok (ceilDiv (axisProduct layout.x outputShape) (wg.1 * ept.1),
        ceilDiv (axisProduct layout.y outputShape) (wg.2.1 * ept.2.1),
        ceilDiv (axisProduct layout.z outputShape) (wg.2.2 * ept.2.2)) := by
  have mx : layout.x.map (fun d => outputShape.getD d 0) ≠ [] := by
    simpa using hx
  have my : layout.y.map (fun d => outputShape.getD d 0) ≠ [] := by
    simpa using hy
  have mz : layout.z.map (fun d => outputShape.getD d 0) ≠ [] := by
    simpa using hz
  unfold computeDispatch axisCount axisProduct
  rw [arrayProduct_ne_nil _ mx, arrayProduct_ne_nil _ my,
    arrayProduct_ne_nil _ mz]
  rfl

/-- C1: for every output shape and dispatch layout in which each output
dimension is assigned to at most one of the three dispatch axes and every
axis has at least one assigned dimension (with positive workgroup sizes and
per-thread multipliers), `computeDispatch` returns, for each axis, the least
count with `count * workGroupSize[axis] * elementsPerThread[axis] >=
product(assigned dims)`: the count covers the product and `count - 1` does
not. -/
theorem computeDispatch_returns_minimal_counts
    (layout : DispatchLayout) (outputShape : List ℕ) (wg ept : ℕ × ℕ × ℕ)
    (hx : layout.x ≠ []) (hy : layout.y ≠ []) (hz : layout.z ≠ [])
    (_hdisjxy : ∀ d ∈ layout.x, d ∉ layout.y)
    (_hdisjxz : ∀ d ∈ layout.x, d ∉ layout.z)
    (_hdisjyz : ∀ d ∈ layout.y, d ∉ layout.z)
    (_hvalid : ∀ d ∈ layout.x ++ layout.y ++ layout.z, d < outputShape.length)
    (hwgx : 0 < wg.1) (hwgy : 0 < wg.2.1) (hwgz : 0 < wg.2.2)
    (heptx : 0 < ept.1) (hepty : 0 < ept.2.1) (heptz : 0 < ept.2.2) :
    ∃ c : ℕ × ℕ × ℕ,
      computeDispatch layout outputShape wg ept = Except.ok c ∧
      (axisProduct layout.x outputShape ≤ c.1 * (wg.1 * ept.1) ∧
        ((c.1 : ℤ) - 1) * ((wg.1 : ℤ) * (ept.1 : ℤ)) <
          (axisProduct layout.x outputShape : ℤ)) ∧
      (axisProduct layout.y outputShape ≤ c.2.1 * (wg.2.1 * ept.2.1) ∧
        ((c.2.1 : ℤ) - 1) * ((wg.2.1 : ℤ) * (ept.2.1 : ℤ)) <
          (axisProduct layout.y outputShape : ℤ)) ∧
      (axisProduct layout.z outputShape ≤ c.2.2 * (wg.2.2 * ept.2.2) ∧
        ((c.2.2 : ℤ) - 1) * ((wg.2.2 : ℤ) * (ept.2.2 : ℤ)) <
          (axisProduct layout.z outputShape : ℤ)) := by
  refine ⟨_, computeDispatch_eq layout outputShape wg ept hx hy hz, ?_, ?_, ?_⟩
  · have h := ceilDiv_spec (axisProduct layout.x outputShape) (wg.1 * ept.1)
      (Nat.mul_pos hwgx heptx)
    refine ⟨h.1, ?_⟩
    have h2 := h.2
    push_cast at h2 ⊢
    exact h2
  · have h := ceilDiv_spec (axisProduct layout.y outputShape) (wg.2.1 * ept.2.1)
      (Nat.mul_pos hwgy hepty)
    refine ⟨h.1, ?_⟩
    have h2 := h.2
    push_cast at h2 ⊢
    exact h2
  · have h := ceilDiv_spec (axisProduct layout.z outputShape) (wg.2.2 * ept.2.2)
      (Nat.mul_pos hwgz heptz)
    refine ⟨h.1, ?_⟩
    have h2 := h.2
    push_cast at h2 ⊢
    exact h2

/-- C1 witness: the dispatch geometry for output shape `[5, 3, 2]` with one
dimension per axis, workgroup size `(2, 2, 2)`. -/
theorem computeDispatch_returns_minimal_counts_witness :
    ∃ c : ℕ × ℕ × ℕ,
      computeDispatch { x := [0], y := [1], z := [2] } [5, 3, 2] (2, 2, 2)
          (1, 1, 1) = Except.ok c ∧
      (axisProduct [0] [5, 3, 2] ≤ c.1 * (2 * 1) ∧
        ((c.1 : ℤ) - 1) * ((2 : ℤ) * (1 : ℤ)) < (axisProduct [0] [5, 3, 2] : ℤ)) ∧
      (axisProduct [1] [5, 3, 2] ≤ c.2.1 * (2 * 1) ∧
        ((c.2.1 : ℤ) - 1) * ((2 : ℤ) * (1 : ℤ)) <
          (axisProduct [1] [5, 3, 2] : ℤ)) ∧
      (axisProduct [2] [5, 3, 2] ≤ c.2.2 * (2 * 1) ∧
        ((c.2.2 : ℤ) - 1) * ((2 : ℤ) * (1 : ℤ)) <
          (axisProduct [2] [5, 3, 2] : ℤ)) :=
  computeDispatch_returns_minimal_counts { x := [0], y := [1], z := [2] }
    [5, 3, 2] (2, 2, 2) (1, 1, 1) (by decide) (by decide) (by decide)
    (by decide) (by decide) (by decide) (by decide) (by decide) (by decide)
    (by decide) (by decide) (by decide) (by decide)

/-- C2 (evaluation at the failing input): `computeDispatch` on a layout whose
`x` axis has no assigned dimensions throws instead of treating the axis as a
factor-1 axis — `arrayProduct` rejects the empty per-axis list.  This is the
exact layout `ArgMinMaxProgram` constructs (`{x: [], y: <output dims>}`). -/
theorem computeDispatch_empty_axis_errors :
    computeDispatch { x := [], y := [0], z := [] } [4] (1, 1, 1) (1, 1, 1) =
      Except.error "Cannot compute product of empty array." := by
  rfl

theorem workGroupXSize_mono (a b : ℕ) (h : a ≤ b) :
    workGroupXSize a ≤ workGroupXSize b := by
  unfold workGroupXSize
  split_ifs <;> omega

/-- C3: `computeWorkGroupSize` returns `[x, 1, 1]` with `x` non-decreasing in
`size = Π outputShape` across the threshold ladder `{16,32,64,128,256,512}`;
in particular size 1 yields `x = 16` and size 600 yields `x = 512`. -/
theorem computeWorkGroupSize_ladder_monotone :
    (∀ s1 s2 : List ℕ, sizeFromShape s1 ≤ sizeFromShape s2 →
        (computeWorkGroupSize s1).1 ≤ (computeWorkGroupSize s2).1) ∧
    computeWorkGroupSize [1] = (16, 1, 1) ∧
    computeWorkGroupSize [600] = (512, 1, 1) ∧
    (∀ shape : List ℕ, (computeWorkGroupSize shape).2 = (1, 1)) :=
  ⟨fun _ _ h => workGroupXSize_mono _ _ h, rfl, rfl, fun _ => rfl⟩

/-- C3 witness: the ladder is monotone from the size-1 shape to the size-600
shape. -/
theorem computeWorkGroupSize_ladder_monotone_witness :
    (computeWorkGroupSize [1]).1 ≤ (computeWorkGroupSize [600]).1 :=
  computeWorkGroupSize_ladder_monotone.1 [1] [600] (by decide)

/-! ## Uniform-packing theorems -/

/-- Padding never makes the offset overshoot: it tops the offset up to the
next multiple of the alignment. -/
theorem padAmount_add (off align : ℕ) (h : 0 < align) :
    off + padAmount off align = ceilDiv off align * align := by
  have hs := (ceilDiv_spec off align h).1
  have key : ∀ X : ℕ, off ≤ X → off + (X - off) = X := fun X hX => by omega
  unfold padAmount
  exact key _ hs

theorem padAmount_add_mod (off align : ℕ) (h : 0 < align) :
    (off + padAmount off align) % align = 0 := by
  rw [padAmount_add off align h]
  exact Nat.mul_mod_left _ _

/-- Unfolding `packFrom` on a non-empty head shape whose base alignment is
defined. -/
theorem packFrom_cons (off : ℕ) (d : List ℕ) (rest : List (List ℕ))
    (hd : d ≠ []) (align : ℕ) (ha : baseAlignment d.length = Except.ok align) :
    packFrom off (d :: rest) =
      (packFrom (off + d.length + padAmount off align) rest).map
        (fun t => List.replicate (padAmount off align) 0 ++ d ++ t) := by
  have hne : d.isEmpty = false := by
    simpa using hd
  simp only [packFrom, hne, Bool.false_eq_true, if_false, ha]
  cases packFrom (off + d.length + padAmount off align) rest <;>
    simp [Except.map]

/-- A rank-3 shape after a rank-3 shape receives exactly one zero padding
slot, at any starting offset: the first rank-3 shape is aligned to a multiple
of 4, after it the offset is 3 modulo 4, so one zero precedes the second. -/
theorem packFrom_rank3_after_rank3 (off : ℕ) (s1 s2 : List ℕ)
    (rest : List (List ℕ)) (h1 : s1.length = 3) (h2 : s2.length = 3) :
    packFrom off (s1 :: s2 :: rest) =
      (packFrom (off + padAmount off 4 + 7) rest).map
        (fun t =>
          List.replicate (padAmount off 4) 0 ++ s1 ++ 0 :: (s2 ++ t)) := by
  have hne1 : s1 ≠ [] := by intro e; rw [e] at h1; simp at h1
  have hne2 : s2 ≠ [] := by intro e; rw [e] at h2; simp at h2
  rw [packFrom_cons off s1 _ hne1 4 (by rw [h1]; rfl)]
  rw [packFrom_cons _ s2 rest hne2 4 (by rw [h2]; rfl)]
  rw [h1, h2]
  have hpad : padAmount (off + 3 + padAmount off 4) 4 = 1 := by
    unfold padAmount ceilDiv
    omega
  rw [hpad]
  have hoff : off + 3 + padAmount off 4 + 3 + 1 = off + padAmount off 4 + 7 := by
    have hub : padAmount off 4 ≤ 4 := by unfold padAmount ceilDiv; omega
    omega
  rw [hoff]
  cases packFrom (off + padAmount off 4 + 7) rest <;> simp [Except.map]

/-- C4: the uniform-buffer packing is a deterministic function of the ordered
shape list; each shape is preceded by zero padding up to its base alignment
(1 for rank 0-1, 2 for rank 2, 4 for rank 3-4), after which the offset is a
multiple of that alignment; consequently a rank-3 shape immediately following
a rank-3 shape is preceded by exactly one zero padding slot. -/
theorem uniform_packing_alignment_and_determinism :
    (∀ l1 l2 : List (List ℕ), l1 = l2 → packShapes l1 = packShapes l2) ∧
    (baseAlignment 0 = Except.ok 1 ∧ baseAlignment 1 = Except.ok 1 ∧
      baseAlignment 2 = Except.ok 2 ∧ baseAlignment 3 = Except.ok 4 ∧
      baseAlignment 4 = Except.ok 4) ∧
    (∀ off align : ℕ, 0 < align → (off + padAmount off align) % align = 0) ∧
    (∀ (off : ℕ) (s1 s2 : List ℕ) (rest : List (List ℕ)),
      s1.length = 3 → s2.length = 3 →
      packFrom off (s1 :: s2 :: rest) =
        (packFrom (off + padAmount off 4 + 7) rest).map
          (fun t =>
            List.replicate (padAmount off 4) 0 ++ s1 ++ 0 :: (s2 ++ t))) :=
  ⟨fun _ _ h => by rw [h], ⟨rfl, rfl, rfl, rfl, rfl⟩, padAmount_add_mod,
    packFrom_rank3_after_rank3⟩

/-- C4 witness: determinism on a concrete list, alignment at offset 3 with
alignment 4, and the rank-3-after-rank-3 single zero for
`[[1,2,3],[4,5,6]]` starting at offset 0. -/
theorem uniform_packing_alignment_and_determinism_witness :
    packShapes [[1, 2, 3], [4, 5, 6]] = packShapes [[1, 2, 3], [4, 5, 6]] ∧
    (3 + padAmount 3 4) % 4 = 0 ∧
    packFrom 0 ([1, 2, 3] :: [4, 5, 6] :: []) =
      (packFrom (0 + padAmount 0 4 + 7) []).map
        (fun t =>
          List.replicate (padAmount 0 4) 0 ++ [1, 2, 3] ++ 0 :: ([4, 5, 6] ++ t)) :=
  ⟨uniform_packing_alignment_and_determinism.1 _ _ rfl,
    uniform_packing_alignment_and_determinism.2.2.1 3 4 (by decide),
    uniform_packing_alignment_and_determinism.2.2.2 0 [1, 2, 3] [4, 5, 6] []
      (by decide) (by decide)⟩

/-- C5 counterexample: the two packing rules already differ on the rank-1 then
rank-2 list `[[5],[2,3]]` — the general base-alignment table pads the rank-2
shape to offset parity 2 while the simpler rule inserts nothing. -/
theorem pack_rules_differ_counterexample :
    packShapes [[5], [2, 3]] = Except.ok [5, 0, 2, 3] ∧
    packSimple [[5], [2, 3]] = [5, 2, 3] ∧
    packShapes [[5], [2, 3]] ≠ Except.ok (packSimple [[5], [2, 3]]) := by
  refine ⟨rfl, rfl, fun h => absurd (Except.ok.inj h) (by decide)⟩

/-- On a list of rank-3 shapes, the general rule starting at an offset that is
3 modulo 4 inserts exactly one zero before every shape, which is what the
simpler rule does after a rank-3 predecessor. -/
theorem packFrom_all_rank3 (shapes : List (List ℕ))
    (h : ∀ s ∈ shapes, s.length = 3) :
    ∀ off, off % 4 = 3 →
      packFrom off shapes = Except.ok (packSimpleAux 3 shapes) := by
  induction shapes with
  | nil => intro off _; rfl
  | cons s rest ih =>
    intro off hoff
    have hs : s.length = 3 := h s (by simp)
    have hrest : ∀ t ∈ rest, t.length = 3 := fun t ht => h t (by simp [ht])
    have hne : s ≠ [] := by intro e; rw [e] at hs; simp at hs
    rw [packFrom_cons off s rest hne 4 (by rw [hs]; rfl)]
    have hpad : padAmount off 4 = 1 := by unfold padAmount ceilDiv; omega
    have hoff2 : (off + s.length + padAmount off 4) % 4 = 3 := by
      rw [hs, hpad]; omega
    rw [ih hrest _ hoff2]
    simp [Except.map, packSimpleAux, hs, hpad]

/-- C5 amended: the general base-alignment rule and the simpler
rank-3-after-rank-3 rule produce the same packed sequence on lists in which
every shape has rank 3 (the case the simpler rule addresses); on general
rank-1-to-4 lists they differ (see the counterexample). -/
theorem pack_rules_agree_on_rank3_lists (shapes : List (List ℕ))
    (h : ∀ s ∈ shapes, s.length = 3) :
    packShapes shapes = Except.ok (packSimple shapes) := by
  cases shapes with
  | nil => rfl
  | cons s rest =>
    have hs : s.length = 3 := h s (by simp)
    have hrest : ∀ t ∈ rest, t.length = 3 := fun t ht => h t (by simp [ht])
    have hne : s ≠ [] := by intro e; rw [e] at hs; simp at hs
    unfold packShapes packSimple
    rw [packFrom_cons 0 s rest hne 4 (by rw [hs]; rfl)]
    have hpad0 : padAmount 0 4 = 0 := by decide
    have hoff2 : (0 + s.length + padAmount 0 4) % 4 = 3 := by
      rw [hs, hpad0]
    rw [packFrom_all_rank3 rest hrest _ hoff2]
    simp [Except.map, packSimpleAux, hs, hpad0]

/-- C5 witness: the amended agreement at the concrete all-rank-3 list
`[[1,2,3],[4,5,6]]`. -/
theorem pack_rules_agree_on_rank3_lists_witness :
    packShapes [[1, 2, 3], [4, 5, 6]] =
      Except.ok (packSimple [[1, 2, 3], [4, 5, 6]]) :=
  pack_rules_agree_on_rank3_lists [[1, 2, 3], [4, 5, 6]] (by decide)

/-! ## Coordinate round-trip theorems -/

/-- Fidelity: the generic `getFlatIndex` agrees with the emitted rank-1
overload `getFlatIndex(int coord, int shape) = coord`. -/
theorem getFlatIndex_rank1 (c s : ℕ) : getFlatIndex [c] [s] = c := rfl

/-- Fidelity: rank-2 overload `coords.x * shape.y + coords.y`. -/
theorem getFlatIndex_rank2 (a b s0 s1 : ℕ) :
    getFlatIndex [a, b] [s0, s1] = a * s1 + b := by
  simp [getFlatIndex, sizeFromShape]

/-- Fidelity: rank-3 overload
`coords.x * shape.y * shape.z + coords.y * shape.z + coords.z`. -/
theorem getFlatIndex_rank3 (a b c s0 s1 s2 : ℕ) :
    getFlatIndex [a, b, c] [s0, s1, s2] = a * s1 * s2 + b * s2 + c := by
  simp [getFlatIndex, sizeFromShape]
  ring

/-- Fidelity: rank-4 overload `coords.x * shape.y * shape.z * shape.w +
coords.y * shape.z * shape.w + coords.z * shape.w + coords.w`. -/
theorem getFlatIndex_rank4 (a b c d s0 s1 s2 s3 : ℕ) :
    getFlatIndex [a, b, c, d] [s0, s1, s2, s3] =
      a * s1 * s2 * s3 + b * s2 * s3 + c * s3 + d := by
  simp [getFlatIndex, sizeFromShape]
  ring

/-- Fidelity: the strides for four dimensions on one axis are the row-major
trailing products. -/
theorem computeStrides_rank4 (s0 s1 s2 s3 : ℕ) :
    computeStrides [s0, s1, s2, s3] = [s1 * s2 * s3, s2 * s3, s3] := by
  simp [computeStrides, sizeFromShape]

/-- The divisor used for the leading dimension by `decomposeIndex` is the
head of `computeStrides`. -/
theorem computeStrides_cons (s s2 : ℕ) (ss : List ℕ) :
    computeStrides (s :: s2 :: ss) =
      sizeFromShape (s2 :: ss) :: computeStrides (s2 :: ss) := rfl

theorem sub_div_mul_eq_mod (i p : ℕ) : i - i / p * p = i % p := by
  have h := Nat.div_add_mod i p
  rw [show i / p * p = p * (i / p) from Nat.mul_comm _ _]
  generalize p * (i / p) = q at h ⊢
  generalize i % p = m at h ⊢
  omega

/-- Re-flattening the stride decomposition of any index recovers the index. -/
theorem decomposeIndex_roundtrip (s : ℕ) (ss : List ℕ) (i : ℕ) :
    getFlatIndex (decomposeIndex (s :: ss) i) (s :: ss) = i := by
  induction ss generalizing s i with
  | nil => rfl
  | cons s2 ss2 ih =>
    obtain ⟨c, cs, hcs⟩ : ∃ c cs,
        decomposeIndex (s2 :: ss2)
            (i - i / sizeFromShape (s2 :: ss2) * sizeFromShape (s2 :: ss2)) =
          c :: cs := by
      cases ss2 <;> exact ⟨_, _, rfl⟩
    have hstep : decomposeIndex (s :: s2 :: ss2) i =
        i / sizeFromShape (s2 :: ss2) ::
          decomposeIndex (s2 :: ss2)
            (i - i / sizeFromShape (s2 :: ss2) * sizeFromShape (s2 :: ss2)) :=
      rfl
    rw [hstep, hcs]
    show i / sizeFromShape (s2 :: ss2) * sizeFromShape (s2 :: ss2) +
        getFlatIndex (c :: cs) (s2 :: ss2) = i
    rw [← hcs, ih s2]
    have hle : i / sizeFromShape (s2 :: ss2) * sizeFromShape (s2 :: ss2) ≤ i :=
      Nat.div_mul_le_self i _
    omega

/-- The stride decomposition of an in-range index is an in-range coordinate
vector. -/
theorem decomposeIndex_bounds (s : ℕ) (ss : List ℕ) (i : ℕ)
    (h : i < sizeFromShape (s :: ss)) :
    List.Forall₂ (fun a b => a < b) (decomposeIndex (s :: ss) i) (s :: ss) := by
  induction ss generalizing s i with
  | nil =>
    rw [sizeFromShape_cons] at h
    simp only [sizeFromShape, List.foldl] at h
    exact List.Forall₂.cons (by omega) List.Forall₂.nil
  | cons s2 ss2 ih =>
    rw [sizeFromShape_cons] at h
    have hp : 0 < sizeFromShape (s2 :: ss2) := by
      rcases Nat.eq_zero_or_pos (sizeFromShape (s2 :: ss2)) with h0 | h0
      · rw [h0, Nat.mul_zero] at h; omega
      · exact h0
    have hd : i / sizeFromShape (s2 :: ss2) < s :=
      (Nat.div_lt_iff_lt_mul hp).mpr h
    have hr : i - i / sizeFromShape (s2 :: ss2) * sizeFromShape (s2 :: ss2) <
        sizeFromShape (s2 :: ss2) := by
      rw [sub_div_mul_eq_mod]
      exact Nat.mod_lt i hp
    exact List.Forall₂.cons hd (ih s2 _ hr)

/-- An in-range coordinate vector flattens below the shape's element count. -/
theorem getFlatIndex_lt : ∀ coords shape : List ℕ, coords ≠ [] →
    List.Forall₂ (fun a b => a < b) coords shape →
    getFlatIndex coords shape < sizeFromShape shape := by
  intro coords
  induction coords with
  | nil => intro shape h _; exact absurd rfl h
  | cons a l1 ih =>
    intro shape _ hf
    cases hf with
    | cons hab htail =>
      rename_i b l2
      cases l1 with
      | nil =>
        cases htail
        show a < sizeFromShape [b]
        rw [sizeFromShape_cons]
        simpa [sizeFromShape] using hab
      | cons c l1x =>
        cases htail with
        | cons hcd htail2 =>
          rename_i d l2x
          have hrec : getFlatIndex (c :: l1x) (d :: l2x) <
              sizeFromShape (d :: l2x) :=
            ih (d :: l2x) (by simp) (List.Forall₂.cons hcd htail2)
          show a * sizeFromShape (d :: l2x) + getFlatIndex (c :: l1x) (d :: l2x) <
            sizeFromShape (b :: d :: l2x)
          rw [sizeFromShape_cons b]
          calc a * sizeFromShape (d :: l2x) + getFlatIndex (c :: l1x) (d :: l2x)
              < (a + 1) * sizeFromShape (d :: l2x) := by
                rw [Nat.add_mul, Nat.one_mul]; omega
            _ ≤ b * sizeFromShape (d :: l2x) :=
                Nat.mul_le_mul_right _ hab

/-- Decomposing the flat index of an in-range coordinate vector recovers the
coordinates. -/
theorem decomposeIndex_leftInv : ∀ coords shape : List ℕ,
    List.Forall₂ (fun a b => a < b) coords shape →
    decomposeIndex shape (getFlatIndex coords shape) = coords := by
  intro coords
  induction coords with
  | nil => intro shape hf; cases hf; rfl
  | cons a l1 ih =>
    intro shape hf
    cases hf with
    | cons hab htail =>
      rename_i b l2
      cases l1 with
      | nil =>
        cases htail
        rfl
      | cons c l1x =>
        cases htail with
        | cons hcd htail2 =>
          rename_i d l2x
          have hF : getFlatIndex (c :: l1x) (d :: l2x) <
              sizeFromShape (d :: l2x) :=
            getFlatIndex_lt _ _ (by simp) (List.Forall₂.cons hcd htail2)
          have hp : 0 < sizeFromShape (d :: l2x) := by omega
          have hflat : getFlatIndex (a :: c :: l1x) (b :: d :: l2x) =
              a * sizeFromShape (d :: l2x) +
                getFlatIndex (c :: l1x) (d :: l2x) := rfl
          have hdiv : (a * sizeFromShape (d :: l2x) +
              getFlatIndex (c :: l1x) (d :: l2x)) / sizeFromShape (d :: l2x) =
              a := by
            rw [Nat.add_comm, Nat.mul_comm,
              Nat.add_mul_div_left _ _ hp,
              Nat.div_eq_of_lt hF, Nat.zero_add]
          have hstep : decomposeIndex (b :: d :: l2x)
              (getFlatIndex (a :: c :: l1x) (b :: d :: l2x)) =
              (getFlatIndex (a :: c :: l1x) (b :: d :: l2x)) /
                  sizeFromShape (d :: l2x) ::
                decomposeIndex (d :: l2x)
                  (getFlatIndex (a :: c :: l1x) (b :: d :: l2x) -
                    getFlatIndex (a :: c :: l1x) (b :: d :: l2x) /
                        sizeFromShape (d :: l2x) *
                      sizeFromShape (d :: l2x)) := rfl
          rw [hstep, hflat, hdiv]
          have hsub : a * sizeFromShape (d :: l2x) +
              getFlatIndex (c :: l1x) (d :: l2x) -
              a * sizeFromShape (d :: l2x) =
              getFlatIndex (c :: l1x) (d :: l2x) := by omega
          rw [hsub, ih (d :: l2x) (List.Forall₂.cons hcd htail2)]

/-- C6: for every output shape of rank 1-4, stride decomposition of a flat
index (as emitted by `generateGetOutputCoords` for the dimensions assigned to
one axis) and row-major re-flattening via `getFlatIndex` are mutually inverse
between `[0, Π shape)` and the coordinate box — a bijection. -/
theorem coords_roundtrip_bijection (shape : List ℕ)
    (hr1 : 1 ≤ shape.length) (_hr4 : shape.length ≤ 4) :
    (∀ i, i < sizeFromShape shape →
        getFlatIndex (decomposeIndex shape i) shape = i ∧
        List.Forall₂ (fun a b => a < b) (decomposeIndex shape i) shape) ∧
    (∀ coords, List.Forall₂ (fun a b => a < b) coords shape →
        decomposeIndex shape (getFlatIndex coords shape) = coords) := by
  cases shape with
  | nil => simp at hr1
  | cons s ss =>
    exact ⟨fun i hi =>
        ⟨decomposeIndex_roundtrip s ss i, decomposeIndex_bounds s ss i hi⟩,
      fun coords hc => decomposeIndex_leftInv coords _ hc⟩

/-- C6 witness: shape `[2, 3]`, flat index `5`, coordinates `[1, 2]`. -/
theorem coords_roundtrip_bijection_witness :
    (getFlatIndex (decomposeIndex [2, 3] 5) [2, 3] = 5 ∧
      List.Forall₂ (fun a b => a < b) (decomposeIndex [2, 3] 5) [2, 3]) ∧
    decomposeIndex [2, 3] (getFlatIndex [1, 2] [2, 3]) = [1, 2] :=
  ⟨(coords_roundtrip_bijection [2, 3] (by decide) (by decide)).1 5 (by decide),
    (coords_roundtrip_bijection [2, 3] (by decide) (by decide)).2 [1, 2]
      (List.Forall₂.cons (by decide)
        (List.Forall₂.cons (by decide) List.Forall₂.nil))⟩

/-! ## Broadcast accessor theorem -/

/-- C7: for input shape `[1,3]` and output shape `[4,3]`, the generated
"at output coords" accessor zeroes the broadcast row coordinate and reads
input element `[0, c]` (flat offset `c`) for every output coordinate
`[r, c]` with `r < 4`, `c < 3`. -/
theorem broadcast_accessor_reads_row_zero :
    ∀ r, r < 4 → ∀ c, c < 3 →
      samplerInputCoords [1, 3] [4, 3] [r, c] = [0, c] ∧
      getFlatIndex (samplerInputCoords [1, 3] [4, 3] [r, c]) [1, 3] = c := by
  decide

/-- C7 witness: output coordinate `[2, 1]` reads input element `[0, 1]`. -/
theorem broadcast_accessor_reads_row_zero_witness :
    samplerInputCoords [1, 3] [4, 3] [2, 1] = [0, 1] ∧
    getFlatIndex (samplerInputCoords [1, 3] [4, 3] [2, 1]) [1, 3] = 1 :=
  broadcast_accessor_reads_row_zero 2 (by decide) 1 (by decide)

/-! ## Cache theorems -/

theorem natRepr_data_lt_ten :
    ∀ n, n < 10 → (Nat.repr n).data = [Nat.digitChar n] := by
  decide

theorem digitChar_inj_lt_ten :
    ∀ a, a < 10 → ∀ b, b < 10 → Nat.digitChar a = Nat.digitChar b → a = b := by
  decide

/-- Comma-joining single-digit rank lists is injective: digits never contain
the separator, so distinct rank lists give distinct key fragments. -/
theorem joinComma_digits_inj : ∀ r1 r2 : List ℕ,
    (∀ x ∈ r1, x < 10) → (∀ x ∈ r2, x < 10) →
    (joinComma (r1.map Nat.repr)).data = (joinComma (r2.map Nat.repr)).data →
    r1 = r2 := by
  intro r1
  induction r1 with
  | nil =>
    intro r2 _ h2 heq
    cases r2 with
    | nil => rfl
    | cons y ys =>
      exfalso
      have hy : y < 10 := h2 y (by simp)
      cases ys with
      | nil =>
        simp only [List.map, joinComma, natRepr_data_lt_ten y hy] at heq
        exact absurd heq.symm (by simp)
      | cons y2 ys2 =>
        simp only [List.map, joinComma, String.data_append,
          natRepr_data_lt_ten y hy] at heq
        exact absurd heq.symm (by simp)
  | cons x xs ih =>
    intro r2 h1 h2 heq
    have hx : x < 10 := h1 x (by simp)
    cases r2 with
    | nil =>
      exfalso
      cases xs with
      | nil =>
        simp only [List.map, joinComma, natRepr_data_lt_ten x hx] at heq
        exact absurd heq (by simp)
      | cons x2 xs2 =>
        simp only [List.map, joinComma, String.data_append,
          natRepr_data_lt_ten x hx] at heq
        exact absurd heq (by simp)
    | cons y ys =>
      have hy : y < 10 := h2 y (by simp)
      cases xs with
      | nil =>
        cases ys with
        | nil =>
          simp only [List.map, joinComma, natRepr_data_lt_ten x hx,
            natRepr_data_lt_ten y hy] at heq
          have := digitChar_inj_lt_ten x hx y hy (by simpa using heq)
          rw [this]
        | cons y2 ys2 =>
          exfalso
          simp only [List.map, joinComma, String.data_append,
            natRepr_data_lt_ten x hx, natRepr_data_lt_ten y hy] at heq
          simp at heq
      | cons x2 xs2 =>
        cases ys with
        | nil =>
          exfalso
          simp only [List.map, joinComma, String.data_append,
            natRepr_data_lt_ten x hx, natRepr_data_lt_ten y hy] at heq
          simp at heq
        | cons y2 ys2 =>
          simp only [List.map, joinComma, String.data_append,
            natRepr_data_lt_ten x hx, natRepr_data_lt_ten y hy] at heq
          simp only [List.cons_append, List.nil_append, List.cons.injEq] at heq
          obtain ⟨hchar, _, htail⟩ := heq
          have hxy := digitChar_inj_lt_ten x hx y hy hchar
          have hxs := ih (y2 :: ys2) (fun t ht => h1 t (by simp [ht]))
            (fun t ht => h2 t (by simp [ht])) htail
          rw [hxy, hxs]

/-- Two `makeShaderKey` inputs differing only in the (single-digit) rank
lists produce different cache keys. -/
theorem makeShaderKey_rank_ne (wg : ℕ × ℕ × ℕ) (code : String)
    (r1 r2 : List ℕ) (h1 : ∀ x ∈ r1, x < 10) (h2 : ∀ x ∈ r2, x < 10)
    (hne : r1 ≠ r2) :
    makeShaderKey wg r1 code ≠ makeShaderKey wg r2 code := by
  intro heq
  apply hne
  have hd : (makeShaderKey wg r1 code).data =
      (makeShaderKey wg r2 code).data := by
    rw [heq]
  unfold makeShaderKey at hd
  simp only [String.data_append, List.append_assoc] at hd
  have hd2 := List.append_cancel_left hd
  have hd3 : (joinComma (r1.map Nat.repr)).data =
      (joinComma (r2.map Nat.repr)).data :=
    List.append_cancel_right
      (by simpa [List.append_assoc] using hd2 :
        (joinComma (r1.map Nat.repr)).data ++ code.data =
          (joinComma (r2.map Nat.repr)).data ++ code.data)
  exact joinComma_digits_inj r1 r2 h1 h2 hd3

theorem cache_hit (st : CacheState) (k : String) (b : ℕ)
    (h : lookupCache st.cache k = some b) :
    getAndSaveBinary st k = (st, b) := by
  unfold getAndSaveBinary
  rw [h]

theorem lookupCache_head (k : String) (b : ℕ) (rest : List (String × ℕ)) :
    lookupCache ((k, b) :: rest) k = some b := by
  simp [lookupCache, List.find?_cons_of_pos]

theorem lookupCache_cons_ne (k k2 : String) (b : ℕ) (rest : List (String × ℕ))
    (h : k ≠ k2) :
    lookupCache ((k, b) :: rest) k2 = lookupCache rest k2 := by
  simp only [lookupCache]
  rw [List.find?_cons_of_neg]
  simp [h]

/-- C8: starting from a fresh cache, running `compileAndRun`'s caching path
twice with the same workgroup size, ranks and user code compiles exactly once
— the second call returns the stored state and binary unchanged; and running
it with a different (single-digit) input-rank list produces a different
`makeShaderKey` and triggers a second, independent compile with a distinct
binary. -/
theorem cache_compile_once_and_rank_key (wg : ℕ × ℕ × ℕ) (ranks : List ℕ)
    (code : String) :
    (compileAndRunCache initCacheState wg ranks code).1.compiles = 1 ∧
    compileAndRunCache (compileAndRunCache initCacheState wg ranks code).1
        wg ranks code =
      compileAndRunCache initCacheState wg ranks code ∧
    (∀ ranks2, (∀ x ∈ ranks, x < 10) → (∀ x ∈ ranks2, x < 10) →
      ranks2 ≠ ranks →
      makeShaderKey wg ranks2 code ≠ makeShaderKey wg ranks code ∧
      (compileAndRunCache (compileAndRunCache initCacheState wg ranks code).1
          wg ranks2 code).1.compiles = 2 ∧
      (compileAndRunCache (compileAndRunCache initCacheState wg ranks code).1
          wg ranks2 code).2 ≠
        (compileAndRunCache initCacheState wg ranks code).2) := by
  have e1 : compileAndRunCache initCacheState wg ranks code =
      ({ cache := [(makeShaderKey wg ranks code, 0)], nextBinary := 1,
         compiles := 1 }, 0) := rfl
  refine ⟨by rw [e1], ?_, ?_⟩
  · rw [e1]
    show getAndSaveBinary _ (makeShaderKey wg ranks code) = _
    rw [cache_hit _ _ 0 (lookupCache_head _ _ _)]
  · intro ranks2 h1 h2 hne
    have hkey : makeShaderKey wg ranks2 code ≠ makeShaderKey wg ranks code :=
      makeShaderKey_rank_ne wg code ranks2 ranks h2 h1 hne
    refine ⟨hkey, ?_, ?_⟩
    · rw [e1]
      show (getAndSaveBinary _ (makeShaderKey wg ranks2 code)).1.compiles = 2
      unfold getAndSaveBinary
      rw [lookupCache_cons_ne _ _ _ _ (Ne.symm hkey)]
      rfl
    · rw [e1]
      show (getAndSaveBinary _ (makeShaderKey wg ranks2 code)).2 ≠ _
      unfold getAndSaveBinary
      rw [lookupCache_cons_ne _ _ _ _ (Ne.symm hkey)]
      simp [lookupCache]

/-- C8 witness: workgroup `(16,1,1)`, user code `"x"`, rank lists `[1,1]`
versus `[2,1]`. -/
theorem cache_compile_once_and_rank_key_witness :
    (compileAndRunCache initCacheState (16, 1, 1) [1, 1] "x").1.compiles = 1 ∧
    makeShaderKey (16, 1, 1) [2, 1] "x" ≠ makeShaderKey (16, 1, 1) [1, 1] "x" ∧
    (compileAndRunCache
        (compileAndRunCache initCacheState (16, 1, 1) [1, 1] "x").1
        (16, 1, 1) [2, 1] "x").1.compiles = 2 := by
  have h := cache_compile_once_and_rank_key (16, 1, 1) [1, 1] "x"
  have h2 := h.2.2 [2, 1] (by decide) (by decide) (by decide)
  exact ⟨h.1, h2.1, h2.2.1⟩

/-! ## Tensor lifecycle theorems -/

/-- C9: on an unregistered identity each of `write`, `read` and `disposeData`
raises the fail-fast "was not registered" error and leaves the backend state
(in particular the tensor map) unchanged; on a registered identity none of
them raises it. -/
theorem unregistered_tensor_fail_fast (st : BackendState) (id : ℕ)
    (vals : List Int) :
    (tensorMapFind st.tensorMap id = none →
      write st id vals = (some (notRegisteredMsg id), st) ∧
      readTensor st id = (some (notRegisteredMsg id), st) ∧
      disposeData st id = (some (notRegisteredMsg id), st)) ∧
    (∀ info, tensorMapFind st.tensorMap id = some info →
      (write st id vals).1 = none ∧ (readTensor st id).1 = none ∧
      (disposeData st id).1 = none) := by
  constructor
  · intro h
    unfold write readTensor disposeData
    rw [h]
    exact ⟨rfl, rfl, rfl⟩
  · intro info h
    unfold write readTensor disposeData
    rw [h]
    exact ⟨rfl, rfl, rfl⟩

/-- C9 witness: identity `5` on the empty backend fails fast with the state
untouched; identity `7` after `register` passes all three operations. -/
theorem unregistered_tensor_fail_fast_witness :
    (write { tensorMap := [], liveBuffers := [], nextBuffer := 0 } 5 [1] =
        (some (notRegisteredMsg 5),
          { tensorMap := [], liveBuffers := [], nextBuffer := 0 }) ∧
      readTensor { tensorMap := [], liveBuffers := [], nextBuffer := 0 } 5 =
        (some (notRegisteredMsg 5),
          { tensorMap := [], liveBuffers := [], nextBuffer := 0 }) ∧
      disposeData { tensorMap := [], liveBuffers := [], nextBuffer := 0 } 5 =
        (some (notRegisteredMsg 5),
          { tensorMap := [], liveBuffers := [], nextBuffer := 0 })) ∧
    ((write
        (register { tensorMap := [], liveBuffers := [], nextBuffer := 0 } 7
          [2, 2]) 7 [3]).1 = none ∧
      (readTensor
        (register { tensorMap := [], liveBuffers := [], nextBuffer := 0 } 7
          [2, 2]) 7).1 = none ∧
      (disposeData
        (register { tensorMap := [], liveBuffers := [], nextBuffer := 0 } 7
          [2, 2]) 7).1 = none) :=
  ⟨(unregistered_tensor_fail_fast
      { tensorMap := [], liveBuffers := [], nextBuffer := 0 } 5 [1]).1 rfl,
    (unregistered_tensor_fail_fast
      (register { tensorMap := [], liveBuffers := [], nextBuffer := 0 } 7
        [2, 2]) 7 [3]).2
      { byteSize := sizeFromShape [2, 2] * 4, values := none, id := -1,
        buffer := 0 } rfl⟩

/-! ## `concat` theorem -/

/-- C10: `concat` on a one-element tensor list returns the input tensor
itself for every axis, with the execution state — registered identities,
compile counter, dispatch counter — completely unchanged. -/
theorem concat_single_tensor_identity (st : ExecState) (t : TensorM)
    (axis : ℕ) :
    concat st [t] axis = (st, some t) ∧
    (concat st [t] axis).1.compiles = st.compiles ∧
    (concat st [t] axis).1.dispatches = st.dispatches ∧
    (concat st [t] axis).1.registered = st.registered :=
  ⟨rfl, rfl, rfl, rfl⟩

end WebGL2Compute
